import Mathlib

/-!
Verification development for the `agx` AgentX (RFC 2741) subagent library.

The definitions below are a shallow embedding of the Go source:
`protocol.go` (wire codec) and the current revision of `agx.go`
(session / dispatcher).  Go byte buffers and Go strings are modelled as
`List Nat` of byte values; Go `int32` / `int16` fields are modelled as `Int`
with explicit two's-complement wrapping where the source converts or
overflows; fallible or panicking code paths return `Option` (with `none`
standing for a decode error or a runtime panic, as noted case by case).
`UnmarshalBinary` methods mutate a fresh receiver in the source; here they
return the decoded value together with the byte count the source reports.
-/

namespace Agx

/-- Go byte strings and byte buffers: lists of byte values (0..255). -/
abbrev GoStr := List Nat

/-! ## Big-endian integer primitives (encoding/binary, binary.BigEndian) -/

/-- Big-endian 4-byte encoding of an unsigned 32-bit value (`binary.Write`). -/
def u32be (n : Nat) : List Nat :=
  [n / 16777216 % 256, n / 65536 % 256, n / 256 % 256, n % 256]

/-- Big-endian 2-byte encoding of an unsigned 16-bit value. -/
def u16be (n : Nat) : List Nat :=
  [n / 256 % 256, n % 256]

/-- Reassemble a 32-bit value from four big-endian bytes (`binary.Read`). -/
def fromU32 (b0 b1 b2 b3 : Nat) : Nat :=
  ((b0 * 256 + b1) * 256 + b2) * 256 + b3

/-- Reassemble a 16-bit value from two big-endian bytes. -/
def fromU16 (b0 b1 : Nat) : Nat :=
  b0 * 256 + b1

/-- Two's-complement image of an `int32` value as an unsigned 32-bit value. -/
def toU32 (i : Int) : Nat := (i % 4294967296).toNat

/-- Two's-complement image of an `int16` value as an unsigned 16-bit value. -/
def toU16 (i : Int) : Nat := (i % 65536).toNat

/-- Big-endian bytes of a Go `int32`. -/
def i32be (i : Int) : List Nat := u32be (toU32 i)

/-- Big-endian bytes of a Go `int16`. -/
def i16be (i : Int) : List Nat := u16be (toU16 i)

/-- Signed (`int32`) interpretation of an unsigned 32-bit value. -/
def sign32 (n : Nat) : Int :=
  if n < 2147483648 then (n : Int) else (n : Int) - 4294967296

/-- Signed (`int16`) interpretation of an unsigned 16-bit value. -/
def sign16 (n : Nat) : Int :=
  if n < 32768 then (n : Int) else (n : Int) - 65536

/-- Go's `int32(x)` conversion: two's-complement truncation to 32 bits. -/
def wrap32 (i : Int) : Int := (i + 2147483648) % 4294967296 - 2147483648

/-- Go's `int16(x)` conversion: two's-complement truncation to 16 bits. -/
def wrap16 (i : Int) : Int := (i + 32768) % 65536 - 32768

/-- Go byte arithmetic (`byte` operations wrap modulo 256). -/
def byteArith (x : Nat) : Nat := x % 256

/-- An `Int` that fits in a Go `int32`. -/
def int32Range (i : Int) : Bool :=
  decide (-2147483648 ≤ i) && decide (i < 2147483648)

/-- An `Int` that fits in a Go `int16`. -/
def int16Range (i : Int) : Bool :=
  decide (-32768 ≤ i) && decide (i < 32768)

/-! ## Byte-stream readers (the `bytes.Reader` side of `binary.Read`) -/

/-- Read one byte; `none` models the reader running dry (an io error). -/
def readByte : List Nat → Option (Nat × List Nat)
  | [] => none
  | b :: rest => some (b, rest)

/-- Read four bytes as an unsigned big-endian 32-bit value. -/
def readU32 : List Nat → Option (Nat × List Nat)
  | b0 :: b1 :: b2 :: b3 :: rest => some (fromU32 b0 b1 b2 b3, rest)
  | _ => none

/-- Read two bytes as an unsigned big-endian 16-bit value. -/
def readU16 : List Nat → Option (Nat × List Nat)
  | b0 :: b1 :: rest => some (fromU16 b0 b1, rest)
  | _ => none

/-- Read a big-endian `int32`. -/
def readI32 (bs : List Nat) : Option (Int × List Nat) :=
  (readU32 bs).map fun p => (sign32 p.1, p.2)

/-- Read a big-endian `int16`. -/
def readI16 (bs : List Nat) : Option (Int × List Nat) :=
  (readU16 bs).map fun p => (sign16 p.1, p.2)

/-- Concatenate the encodings of a list of items (repeated `netMarshal`). -/
def encList {α : Type} (f : α → List Nat) : List α → List Nat
  | [] => []
  | a :: as => f a ++ encList f as

/-! ## Subtree (the OID type of `protocol.go`)

`type Subtree struct { NSubid, Prefix, Zero, Reserved byte;
SubIdentifiers []int32 }`.  The Go `Prefix` / `Reserved` fields are named
`Pfx` / `Rsvd` here.  Byte fields are kept `< 256` by well-formedness. -/

structure Subtree where
  NSubid : Nat
  Pfx : Nat
  Zero : Nat
  Rsvd : Nat
  SubIdentifiers : List Int
  deriving Repr, DecidableEq

/-- `Subtree.MarshalBinary`: four header bytes, then each subid big-endian. -/
def Subtree.marshalBinary (s : Subtree) : List Nat :=
  [s.NSubid, s.Pfx, s.Zero, s.Rsvd] ++ encList i32be s.SubIdentifiers

/-- `Subtree.WireSize`: `4 + len(s.SubIdentifiers)*4`. -/
def Subtree.wireSize (s : Subtree) : Int :=
  4 + (s.SubIdentifiers.length : Int) * 4

/-- Read `n` consecutive big-endian `int32` subidentifiers. -/
def readSubids : Nat → List Nat → Option (List Int × List Nat)
  | 0, bs => some ([], bs)
  | k + 1, bs =>
      (readI32 bs).bind fun p =>
        (readSubids k p.2).map fun q => (p.1 :: q.1, q.2)

/-- `Subtree.UnmarshalBinary`: the four header bytes, then `NSubid`
subidentifiers; the byte count reported is `4 + 4*NSubid`. -/
def Subtree.unmarshalBinary (bs : List Nat) : Option (Nat × Subtree) :=
  (readByte bs).bind fun a =>
  (readByte a.2).bind fun b =>
  (readByte b.2).bind fun c =>
  (readByte c.2).bind fun d =>
  (readSubids a.1 d.2).map fun e =>
    (4 + 4 * a.1, ⟨a.1, b.1, c.1, d.1, e.1⟩)

/-- Well-formed OID value: the stored subid count matches the list, byte
fields are bytes, and every subidentifier fits in `int32`. -/
def Subtree.wf (s : Subtree) : Bool :=
  decide (s.NSubid = s.SubIdentifiers.length) && decide (s.NSubid < 256) &&
  decide (s.Pfx < 256) && decide (s.Zero < 256) && decide (s.Rsvd < 256) &&
  s.SubIdentifiers.all int32Range

/-! ## OctetString

`type OctetString struct { OctetStringLength int32; Octets []byte }`. -/

structure OctetString where
  OctetStringLength : Int
  Octets : List Nat
  deriving Repr, DecidableEq

/-- `OctetString.Pad`: pad `Octets` to a 4-byte boundary in place and return
the pad count.  (The `len(s.Octets) == 0` branch of the source is dead code:
an empty slice already has remainder 0.) -/
def OctetString.pad (s : OctetString) : OctetString × Int :=
  let r := s.Octets.length % 4
  if r = 0 then (s, 0)
  else if s.Octets.length = 0 then (s, 4)
  else ({ s with Octets := s.Octets ++ List.replicate (4 - r) 0 }, ((4 - r : Nat) : Int))

/-- `NewOctetString`: record the logical length, copy the octets, pad. -/
def NewOctetString (bs : List Nat) : OctetString :=
  (OctetString.pad { OctetStringLength := (bs.length : Int), Octets := bs }).1

/-- `OctetString.MarshalBinary`: 32-bit length, then the (padded) octets. -/
def OctetString.marshalBinary (s : OctetString) : List Nat :=
  i32be s.OctetStringLength ++ (s.pad).1.Octets

/-- `OctetString.UnmarshalBinary`: read the length, then that many octets
(failing if the buffer runs dry), pad, and report `4 + length + padding`
bytes consumed.  A negative length reads no octets, as in the source. -/
def OctetString.unmarshalBinary (bs : List Nat) : Option (Int × OctetString) :=
  (readI32 bs).bind fun p =>
    let cnt : Nat := p.1.toNat
    if p.2.length < cnt then none
    else
      let padded := OctetString.pad { OctetStringLength := p.1, Octets := p.2.take cnt }
      some (4 + p.1 + padded.2, padded.1)

/-- Well-formed octet string: a nonnegative `int32` logical length, octets =
logical octets plus a zero pad to the 4-byte boundary (the shape every
`NewOctetString` result has). -/
def OctetString.wf (s : OctetString) : Bool :=
  decide (0 ≤ s.OctetStringLength) && decide (s.OctetStringLength < 2147483648) &&
  decide (s.Octets.length =
    s.OctetStringLength.toNat + (4 - s.OctetStringLength.toNat % 4) % 4) &&
  decide (s.Octets.drop s.OctetStringLength.toNat =
    List.replicate ((4 - s.OctetStringLength.toNat % 4) % 4) 0)

/-! ## VarBind

`type VarBind struct { Type, Reserved int16; Name Subtree; Data interface{} }`.
The dynamically typed `Data` becomes a tagged variant; `DNone` is the `nil`
interface value.  The Go `Type` field is named `VType` here. -/

/-- The `interface{}` payload of a VarBind. -/
inductive VBData where
  | DNone
  | DInt (i : Int)
  | DGauge (n : Nat)
  | DOctet (s : OctetString)
  deriving Repr, DecidableEq

structure VarBind where
  VType : Int
  Rsvd : Int
  Name : Subtree
  Data : VBData
  deriving Repr, DecidableEq

/-- VarBind type codes from `protocol.go`. -/
def IntegerT : Int := 2

def OctetStringT : Int := 4

def NullT : Int := 5

def ObjectIdentifierT : Int := 6

def IpAddressT : Int := 64

def Counter32T : Int := 65

def Gauge32T : Int := 66

def TimeTicksT : Int := 67

def OpaqueT : Int := 68

def Counter64T : Int := 70

def NoSuchObjectT : Int := 128

def NoSuchInstanceT : Int := 129

def EndOfMibViewT : Int := 130

/-- `NoSuchObjectVarBind`: a payloadless VarBind of type `NoSuchObjectT`. -/
def NoSuchObjectVarBind (oid : Subtree) : VarBind :=
  { VType := NoSuchObjectT, Rsvd := 0, Name := oid, Data := .DNone }

/-- `EndOfMibViewVarBind`: a payloadless VarBind of type `EndOfMibViewT`. -/
def EndOfMibViewVarBind (oid : Subtree) : VarBind :=
  { VType := EndOfMibViewT, Rsvd := 0, Name := oid, Data := .DNone }

/-- `IntegerVarBind`. -/
def IntegerVarBind (oid : Subtree) (value : Int) : VarBind :=
  { VType := IntegerT, Rsvd := 0, Name := oid, Data := .DInt value }

/-- `Gauge32VarBind`. -/
def Gauge32VarBind (oid : Subtree) (value : Nat) : VarBind :=
  { VType := Gauge32T, Rsvd := 0, Name := oid, Data := .DGauge value }

/-- `OctetStringVarBind`. -/
def OctetStringVarBind (oid : Subtree) (s : List Nat) : VarBind :=
  { VType := OctetStringT, Rsvd := 0, Name := oid, Data := .DOctet (NewOctetString s) }

/-- `VarBind.MarshalBinary`: type, reserved, name, then the payload by type.
Only Integer, OctetString and Gauge32 payloads are implemented by the source;
the remaining cases write nothing.  `none` models the type-assertion panic
when the payload does not match the stated type. -/
def VarBind.marshalBinary (v : VarBind) : Option (List Nat) :=
  let head := i16be v.VType ++ i16be v.Rsvd ++ v.Name.marshalBinary
  if v.VType = IntegerT then
    match v.Data with
    | .DInt i => some (head ++ i32be i)
    | _ => none
  else if v.VType = OctetStringT then
    match v.Data with
    | .DOctet s => some (head ++ s.marshalBinary)
    | _ => none
  else if v.VType = Gauge32T then
    match v.Data with
    | .DGauge n => some (head ++ u32be (n % 4294967296))
    | _ => none
  else some head

/-- `VarBind.WireSize`.  `none` models the type assertion
`v.Data.(OctetString)` panicking in the `OctetStringT` branch. -/
def VarBind.wireSize (v : VarBind) : Option Int :=
  let sz : Int := 4 + v.Name.wireSize
  if v.VType = IntegerT then some (sz + 4)
  else if v.VType = OctetStringT then
    match v.Data with
    | .DOctet s => some (sz + 4 + s.Octets.length)
    | _ => none
  else if v.VType = Gauge32T then some (sz + 4)
  else some sz

/-- `VarBind.UnmarshalBinary`.  The byte count the source reports is
`before - r.Len()` of the reader recreated after the name, so in the
OctetString branch it does not include the octet-string field. -/
def VarBind.unmarshalBinary (bs : List Nat) : Option (Nat × VarBind) :=
  (readI16 bs).bind fun a =>
  (readI16 a.2).bind fun b =>
  (Subtree.unmarshalBinary b.2).bind fun c =>
  let i := 4 + c.1
  let tail := bs.drop i
  if a.1 = IntegerT then
    (readI32 tail).map fun d => (i + 4, ⟨a.1, b.1, c.2, .DInt d.1⟩)
  else if a.1 = OctetStringT then
    (OctetString.unmarshalBinary tail).map fun d => (i, ⟨a.1, b.1, c.2, .DOctet d.2⟩)
  else if a.1 = Gauge32T then
    (readU32 tail).map fun d => (i + 4, ⟨a.1, b.1, c.2, .DGauge d.1⟩)
  else some (i, ⟨a.1, b.1, c.2, .DNone⟩)

/-- Well-formed VarBind: fields in range, name well-formed, and the payload
variant matching the stated type (with implemented payload kinds only). -/
def VarBind.wf (v : VarBind) : Bool :=
  int16Range v.VType && int16Range v.Rsvd && v.Name.wf &&
  (match v.Data with
   | .DInt i => decide (v.VType = IntegerT) && int32Range i
   | .DOctet s => decide (v.VType = OctetStringT) && s.wf
   | .DGauge n => decide (v.VType = Gauge32T) && decide (n < 4294967296)
   | .DNone => decide (v.VType ≠ IntegerT) && decide (v.VType ≠ OctetStringT) &&
               decide (v.VType ≠ Gauge32T))

/-! ## Header

The 20-byte AgentX header.  The Go `Type` / `Reserved` fields are named
`HType` / `Rsvd`. -/

structure Header where
  Version : Nat
  HType : Nat
  Flags : Nat
  Rsvd : Nat
  SessionId : Int
  TransactionId : Int
  PacketId : Int
  PayloadLength : Int
  deriving Repr, DecidableEq

/-- PDU type codes. -/
def OpenPDU : Nat := 1

def ClosePDU : Nat := 2

def RegisterPDU : Nat := 3

def UnregisterPDU : Nat := 4

def GetPDU : Nat := 5

def GetNextPDU : Nat := 6

def TestSetPDU : Nat := 8

def CommitSetPDU : Nat := 9

def CleanupSetPDU : Nat := 11

def ResponsePDU : Nat := 18

/-- Header flag bits and the sentinel transaction ids. -/
def NetworkByteOrder : Nat := 16

def NonDefaultContext : Nat := 8

def CloseTransactionId : Int := 86

def RegisterTransactionId : Int := 47

def UnregisterTransactionId : Int := 74

/-- `Header.MarshalBinary` (`binary.Write` of the whole struct). -/
def Header.marshalBinary (h : Header) : List Nat :=
  [h.Version, h.HType, h.Flags, h.Rsvd] ++ i32be h.SessionId ++
    i32be h.TransactionId ++ i32be h.PacketId ++ i32be h.PayloadLength

/-- `Header.UnmarshalBinary` (`binary.Read` of the whole struct): 20 bytes
consumed on success, error on a short buffer. -/
def Header.unmarshalBinary (bs : List Nat) : Option (Nat × Header) :=
  (readByte bs).bind fun a =>
  (readByte a.2).bind fun b =>
  (readByte b.2).bind fun c =>
  (readByte c.2).bind fun d =>
  (readI32 d.2).bind fun e =>
  (readI32 e.2).bind fun f =>
  (readI32 f.2).bind fun g =>
  (readI32 g.2).map fun k =>
    (20, ⟨a.1, b.1, c.1, d.1, e.1, f.1, g.1, k.1⟩)

/-- Well-formed header: byte fields are bytes, 32-bit fields fit `int32`. -/
def Header.wf (h : Header) : Bool :=
  decide (h.Version < 256) && decide (h.HType < 256) && decide (h.Flags < 256) &&
  decide (h.Rsvd < 256) && int32Range h.SessionId && int32Range h.TransactionId &&
  int32Range h.PacketId && int32Range h.PayloadLength

/-! ## Go strings

OIDs travel through the dispatcher as dotted-decimal Go strings; the string
layer is where several claims are decided, so it is embedded exactly:
`strconv.Itoa`, `strings.Split(s, ".")`, `strconv.ParseInt(x, 10, 32)`,
byte-wise string comparison, and `strings.HasPrefix`. -/

/-- Decimal digits of a natural number, most significant first, as ASCII
(`strconv.Itoa`).  Structural recursion on a fuel argument (the fuel `n`
always suffices, since dividing by ten strictly shrinks the value), so the
definition evaluates inside the kernel. -/
def natDecAux : Nat → Nat → List Nat
  | 0, n => [n % 10 + 48]
  | fuel + 1, n => if n < 10 then [n + 48] else natDecAux fuel (n / 10) ++ [n % 10 + 48]

def natDec (n : Nat) : List Nat := natDecAux n n

/-- `strconv.Itoa` on an integer (minus sign for negatives). -/
def intDec (i : Int) : List Nat :=
  if i < 0 then 45 :: natDec (-i).toNat else natDec i.toNat

/-- `strings.Split(s, ".")`: split at every `'.'` (byte 46). -/
def splitDot : GoStr → List GoStr
  | [] => [[]]
  | c :: rest =>
      match splitDot rest with
      | [] => [[c]]
      | g :: gs => if c = 46 then [] :: g :: gs else (c :: g) :: gs

/-- Accumulate decimal digits; `none` on a non-digit byte. -/
def decDigitsAux : Nat → List Nat → Option Nat
  | acc, [] => some acc
  | acc, d :: rest =>
      if 48 ≤ d ∧ d ≤ 57 then decDigitsAux (acc * 10 + (d - 48)) rest else none

/-- A nonempty all-digit string as a natural number. -/
def decDigits : List Nat → Option Nat
  | [] => none
  | s => decDigitsAux 0 s

/-- `strconv.ParseInt(s, 10, 32)`: optional sign, digits, `int32` range. -/
def parseInt32 (s : GoStr) : Option Int :=
  match s with
  | [] => none
  | c :: rest =>
      if c = 45 then
        (decDigits rest).bind fun n =>
          if n ≤ 2147483648 then some (-(n : Int)) else none
      else if c = 43 then
        (decDigits rest).bind fun n =>
          if n ≤ 2147483647 then some ((n : Int)) else none
      else
        (decDigits s).bind fun n =>
          if n ≤ 2147483647 then some ((n : Int)) else none

/-- `NewSubtree(oid string)`: split on dots, `NSubid = byte(len(ids))`,
parse every component as an `int32` (`none` on a parse error). -/
def NewSubtree (oid : GoStr) : Option Subtree :=
  let ids := splitDot oid
  (ids.mapM parseInt32).map fun subs =>
    { NSubid := ids.length % 256, Pfx := 0, Zero := 0, Rsvd := 0,
      SubIdentifiers := subs }

/-- `Subtree.String()`: dotted decimal of the subidentifiers, with
`"1.3.6.1.<Prefix>."` prepended when the prefix byte is nonzero.  `none`
models the index-out-of-range panic on an OID with no subidentifiers. -/
def subtreeString (s : Subtree) : Option GoStr :=
  match s.SubIdentifiers with
  | [] => none
  | x :: rest =>
      let str := rest.foldl (fun acc y => acc ++ 46 :: intDec y) (intDec x)
      some (if s.Pfx ≠ 0 then
              [49, 46, 51, 46, 54, 46, 49, 46] ++ natDec s.Pfx ++ 46 :: str
            else str)

/-- Go byte-wise string `<`. -/
def goStrLt : GoStr → GoStr → Bool
  | [], [] => false
  | [], _ :: _ => true
  | _ :: _, [] => false
  | a :: as, b :: bs => if a < b then true else if b < a then false else goStrLt as bs

/-- Go string `<=` (total order: `s <= t ↔ ¬ t < s`). -/
def goStrLe (a b : GoStr) : Bool := !(goStrLt b a)

/-- `strings.HasPrefix(s, p)`. -/
def goHasPref (s p : GoStr) : Bool := decide (s.take p.length = p)

/-- `Subtree.HasPrefix`: compares the dotted-string forms.  `none` models the
panic when either OID has no subidentifiers. -/
def Subtree.hasPref (s p : Subtree) : Option Bool :=
  (subtreeString s).bind fun ss =>
    (subtreeString p).map fun ps => goHasPref ss ps

/-- `Subtree.GreaterThan`: `s.String() > x.String()` on Go strings. -/
def Subtree.greaterThan (s x : Subtree) : Option Bool :=
  (subtreeString s).bind fun ss =>
    (subtreeString x).map fun xs => goStrLt xs ss

/-- `Subtree.GreaterThanEq`: `s.String() >= x.String()`. -/
def Subtree.greaterThanEq (s x : Subtree) : Option Bool :=
  (subtreeString s).bind fun ss =>
    (subtreeString x).map fun xs => goStrLe xs ss

/-- `Subtree.LessThan`: `s.String() < x.String()`. -/
def Subtree.lessThan (s x : Subtree) : Option Bool :=
  (subtreeString s).bind fun ss =>
    (subtreeString x).map fun xs => goStrLt ss xs

/-- `Subtree.LessThanEq`: `s.String() <= x.String()`. -/
def Subtree.lessThanEq (s x : Subtree) : Option Bool :=
  (subtreeString s).bind fun ss =>
    (subtreeString x).map fun xs => goStrLe ss xs

/-! ### Specification-side OID order (for comparison with the code)

These two definitions follow the spec's words ("lexicographic on the
expanded subidentifier sequence, prefix applied"), not the source; they exist
to be compared against the string-based code above. -/

/-- The expanded subidentifier sequence of an OID (spec wording). -/
def Subtree.expand (s : Subtree) : List Int :=
  if s.Pfx ≠ 0 then [1, 3, 6, 1, (s.Pfx : Int)] ++ s.SubIdentifiers
  else s.SubIdentifiers

/-- Lexicographic order on subidentifier sequences (spec wording). -/
def lexLtInt : List Int → List Int → Bool
  | [], [] => false
  | [], _ :: _ => true
  | _ :: _, [] => false
  | a :: as, b :: bs => if a < b then true else if b < a then false else lexLtInt as bs

/-- Sequence-prefix test on expanded subidentifier sequences (spec wording). -/
def seqIsPref (p s : List Int) : Bool := decide (s.take p.length = p)

/-! ## OpenMessage -/

structure OpenMessage where
  Hdr : Header
  Timeout : Nat
  Rsvd3 : List Nat
  Id : Subtree
  Desc : OctetString
  deriving Repr, DecidableEq

/-- `NewOpenMessage(id, descr *string)`.  `PayloadLength` starts at 4
(timeout + reserved); the id adds `int32(4 + 4*NSubid)` — computed in Go
*byte* arithmetic, so it wraps modulo 256 — and the description adds
`int32(4 + len + pad)`. -/
def NewOpenMessage (id descr : Option GoStr) : Option OpenMessage :=
  let m0 : OpenMessage :=
    { Hdr := { Version := 1, HType := OpenPDU, Flags := NetworkByteOrder, Rsvd := 0,
               SessionId := 0, TransactionId := 0, PacketId := 0, PayloadLength := 4 },
      Timeout := 5, Rsvd3 := [0, 0, 0],
      Id := ⟨0, 0, 0, 0, []⟩, Desc := ⟨0, []⟩ }
  let step1 : Option OpenMessage :=
    match id with
    | none => some m0
    | some idStr =>
        let ids := splitDot idStr
        let nsub := ids.length % 256
        (ids.mapM parseInt32).map fun subs =>
          { m0 with
            Id := ⟨nsub, 0, 0, 0, subs⟩,
            Hdr := { m0.Hdr with
              PayloadLength :=
                wrap32 (m0.Hdr.PayloadLength + (byteArith (4 + 4 * nsub) : Int)) } }
  step1.map fun m1 =>
    match descr with
    | none => m1
    | some dStr =>
        let d0 : OctetString := { OctetStringLength := (dStr.length : Int), Octets := dStr }
        let padded := d0.pad
        { m1 with
          Desc := padded.1,
          Hdr := { m1.Hdr with
            PayloadLength :=
              wrap32 (m1.Hdr.PayloadLength +
                wrap32 (4 + (dStr.length : Int) + padded.2)) } }

/-- `OpenMessage.MarshalBinary`: header, timeout byte, three reserved bytes,
then the id and the description. -/
def OpenMessage.marshalBinary (m : OpenMessage) : List Nat :=
  m.Hdr.marshalBinary ++ m.Timeout :: m.Rsvd3 ++ m.Id.marshalBinary ++
    m.Desc.marshalBinary

/-- `OpenMessage.UnmarshalBinary`: header, one timeout byte (then skip to
offset 24, leaving the reserved bytes unread), id, description. -/
def OpenMessage.unmarshalBinary (bs : List Nat) : Option (Int × OpenMessage) :=
  (Header.unmarshalBinary bs).bind fun a =>
  (readByte (bs.drop 20)).bind fun t =>
  (Subtree.unmarshalBinary (bs.drop 24)).bind fun b =>
  (OctetString.unmarshalBinary (bs.drop (24 + b.1))).map fun c =>
    (24 + (b.1 : Int) + c.1, ⟨a.2, t.1, [0, 0, 0], b.2, c.2⟩)

/-! ## CloseMessage -/

structure CloseMessage where
  Hdr : Header
  Reason : Nat
  Rsvd3 : List Nat
  deriving Repr, DecidableEq

def CloseReasonShutdown : Nat := 5

/-- `NewCloseMessage(reason, sessionId)`. -/
def NewCloseMessage (reason : Nat) (sessionId : Int) : CloseMessage :=
  { Hdr := { Version := 1, HType := ClosePDU, Flags := NetworkByteOrder, Rsvd := 0,
             SessionId := sessionId, TransactionId := CloseTransactionId,
             PacketId := 1, PayloadLength := 4 },
    Reason := reason, Rsvd3 := [0, 0, 0] }

/-- `CloseMessage.MarshalBinary`: header, reason byte, three reserved bytes. -/
def CloseMessage.marshalBinary (m : CloseMessage) : List Nat :=
  m.Hdr.marshalBinary ++ m.Reason :: m.Rsvd3

/-- `CloseMessage.UnmarshalBinary`: header, one reason byte, count 24. -/
def CloseMessage.unmarshalBinary (bs : List Nat) : Option (Nat × CloseMessage) :=
  (Header.unmarshalBinary bs).bind fun a =>
  (readByte (bs.drop 20)).map fun r =>
    (24, ⟨a.2, r.1, [0, 0, 0]⟩)

/-! ## RegisterMessage (also used for Unregister) -/

structure RegisterMessage where
  Hdr : Header
  Context : Option OctetString
  Timeout : Nat
  Priority : Nat
  RangeSubid : Nat
  Rsvd : Nat
  Subtr : Subtree
  UpperBound : Option Int
  deriving Repr, DecidableEq

/-- `ConnectionTimeout` and `BasePriority` from `agx.go`. -/
def ConnectionTimeout : Nat := 10

def BasePriority : Nat := 47

/-- `NewRegisterMessage(subtree, context, upperBound)`.  The subtree length
contribution `int32(4 + 4*NSubid)` is Go byte arithmetic (wraps mod 256);
`RangeSubid` is never set, even when an upper bound is supplied. -/
def NewRegisterMessage (subtree : GoStr) (context : Option GoStr)
    (upperBound : Option Int) : Option RegisterMessage :=
  let flags := if context.isSome then NetworkByteOrder ||| NonDefaultContext
               else NetworkByteOrder
  let ctxOS : Option OctetString := context.map NewOctetString
  let pl1 : Int :=
    match ctxOS with
    | some c => wrap32 (4 + (4 + wrap32 (c.Octets.length : Int)))
    | none => 4
  (NewSubtree subtree).map fun st =>
    let pl2 : Int := wrap32 (pl1 + (byteArith (4 + 4 * st.NSubid) : Int))
    let pl3 : Int := match upperBound with | some _ => wrap32 (pl2 + 4) | none => pl2
    { Hdr := { Version := 1, HType := RegisterPDU, Flags := flags, Rsvd := 0,
               SessionId := 0, TransactionId := RegisterTransactionId,
               PacketId := 0, PayloadLength := pl3 },
      Context := ctxOS, Timeout := ConnectionTimeout, Priority := BasePriority,
      RangeSubid := 0, Rsvd := 0, Subtr := st, UpperBound := upperBound }

/-- `NewUnregisterMessage`: a register message with type and tag replaced. -/
def NewUnregisterMessage (subtree : GoStr) (context : Option GoStr)
    (upperBound : Option Int) : Option RegisterMessage :=
  (NewRegisterMessage subtree context upperBound).map fun m =>
    let h := { m.Hdr with HType := UnregisterPDU, TransactionId := UnregisterTransactionId }
    { m with Hdr := h }

/-- `RegisterMessage.MarshalBinary`: header, optional context, the four
timeout/priority/range/reserved bytes, subtree, optional upper bound. -/
def RegisterMessage.marshalBinary (m : RegisterMessage) : List Nat :=
  m.Hdr.marshalBinary ++
  (match m.Context with | some c => c.marshalBinary | none => []) ++
  [m.Timeout, m.Priority, m.RangeSubid, m.Rsvd] ++
  m.Subtr.marshalBinary ++
  (match m.UpperBound with | some ub => i32be ub | none => [])

/-- `RegisterMessage.UnmarshalBinary`: context is read iff NonDefaultContext
is set in the decoded flags; a nonzero `RangeSubid` always fails, because the
source passes `&m.UpperBound` (a `**int32`) to `binary.Read`. -/
def RegisterMessage.unmarshalBinary (bs : List Nat) : Option (Int × RegisterMessage) :=
  (Header.unmarshalBinary bs).bind fun a =>
  (if a.2.Flags &&& NonDefaultContext ≠ 0 then
    (OctetString.unmarshalBinary (bs.drop 20)).map fun c => (c.1, some c.2)
   else some ((0 : Int), (none : Option OctetString))).bind fun ctx =>
  let i1 : Int := 20 + ctx.1
  (readByte (bs.drop i1.toNat)).bind fun t =>
  (readByte t.2).bind fun p =>
  (readByte p.2).bind fun rs =>
  (readByte rs.2).bind fun rv =>
  (Subtree.unmarshalBinary rv.2).bind fun st =>
  let i2 : Int := i1 + 4 + st.1
  if rs.1 ≠ 0 then none
  else some (i2, ⟨a.2, ctx.2, t.1, p.1, rs.1, rv.1, st.2, none⟩)

/-! ## Response -/

structure ResponsePayload where
  SysUptime : Int
  Error : Int
  Index : Int
  VarBindList : List VarBind
  deriving Repr, DecidableEq

structure Response where
  Hdr : Header
  Payload : ResponsePayload
  deriving Repr, DecidableEq

/-- Marshal a VarBind list (`none` models a type-assertion panic). -/
def marshalVarBindList : List VarBind → Option (List Nat)
  | [] => some []
  | v :: vs =>
      (v.marshalBinary).bind fun b =>
        (marshalVarBindList vs).map fun bs => b ++ bs

/-- `Response.MarshalBinary`: header, SysUptime, Error, Index, VarBinds. -/
def Response.marshalBinary (m : Response) : Option (List Nat) :=
  (marshalVarBindList m.Payload.VarBindList).map fun vbs =>
    m.Hdr.marshalBinary ++ i32be m.Payload.SysUptime ++
      i16be m.Payload.Error ++ i16be m.Payload.Index ++ vbs

/-- `ResponsePayload.UnmarshalBinary`: SysUptime, Error, Index — the source
never decodes the VarBind list (`//TODO unmarshal var bind list`), so the
decoded list is always empty and the count is 8. -/
def ResponsePayload.unmarshalBinary (bs : List Nat) : Option (Nat × ResponsePayload) :=
  (readI32 bs).bind fun u =>
  (readI16 u.2).bind fun e =>
  (readI16 e.2).map fun ix =>
    (8, ⟨u.1, e.1, ix.1, []⟩)

/-- `Response.UnmarshalBinary`: header then payload. -/
def Response.unmarshalBinary (bs : List Nat) : Option (Nat × Response) :=
  (Header.unmarshalBinary bs).bind fun a =>
  (ResponsePayload.unmarshalBinary (bs.drop 20)).map fun p =>
    (20 + p.1, ⟨a.2, p.2⟩)

/-! ## Message well-formedness (the shapes the library itself constructs) -/

def OpenMessage.wf (m : OpenMessage) : Bool :=
  m.Hdr.wf && decide (m.Timeout < 256) && decide (m.Rsvd3 = [0, 0, 0]) &&
  m.Id.wf && m.Desc.wf

def CloseMessage.wf (m : CloseMessage) : Bool :=
  m.Hdr.wf && decide (m.Reason < 256) && decide (m.Rsvd3 = [0, 0, 0])

def RegisterMessage.wf (m : RegisterMessage) : Bool :=
  m.Hdr.wf && decide (m.Timeout < 256) && decide (m.Priority < 256) &&
  decide (m.RangeSubid = 0) && decide (m.Rsvd < 256) && m.Subtr.wf &&
  decide (m.UpperBound = none) &&
  (match m.Context with
   | some c => c.wf && decide (m.Hdr.Flags &&& NonDefaultContext ≠ 0)
   | none => decide (m.Hdr.Flags &&& NonDefaultContext = 0))

def Response.wf (m : Response) : Bool :=
  m.Hdr.wf && int32Range m.Payload.SysUptime && int16Range m.Payload.Error &&
  int16Range m.Payload.Index && m.Payload.VarBindList.all VarBind.wf

/-! ## Dispatcher (`agx.go`, current revision)

Handler tables are Go maps iterated in unspecified order; they are modelled
as association lists, and the dispatcher's `sort.Sort` as an insertion sort
on the byte-wise string order of the keys (all `sort.Sort` guarantees is
sortedness; ties between equal keys are unspecified in the source). -/

/-- The two handler kinds `varSearch` distinguishes (`HandlerBundle.Type`);
the stored `interface{}` handler is carried in the matching variant. -/
inductive Handler where
  | point (f : Subtree → VarBind)
  | subtree (f : Subtree → Bool → VarBind)

/-- One entry of the merged handler list (`HandlerBundle`). -/
structure HandlerBundle where
  Oid : GoStr
  H : Handler

/-- Whether a bundle holds a point (`GetHandlerType`) handler. -/
def HandlerBundle.isPoint (b : HandlerBundle) : Bool :=
  match b.H with
  | .point _ => true
  | .subtree _ => false

/-- Insertion step for the sort on `Oid` (byte-wise Go string order). -/
def insertBundle (h : HandlerBundle) : List HandlerBundle → List HandlerBundle
  | [] => [h]
  | b :: bs => if goStrLe h.Oid b.Oid then h :: b :: bs else b :: insertBundle h bs

/-- `sort.Sort(allHandlers)` with `Less i j = hs[i].Oid < hs[j].Oid`. -/
def sortBundles : List HandlerBundle → List HandlerBundle
  | [] => []
  | h :: hs => insertBundle h (sortBundles hs)

/-- `varSearch(oid, handlers, next)`: walk the handler list; a subtree
handler whose key is `>=` the truncated target is invoked (with fall-through
on EndOfMibView); a point handler whose key is `>= oid` consumes the `next`
flag the first time and is invoked with *its own key* the next time.
`none` models the panics in the source: the string slice `oid[:len(h.Oid)]`
when the handler key is longer than the target, and the nil dereference of
`NewSubtree`'s result on a parse failure. -/
def varSearch (oid : GoStr) (handlers : List HandlerBundle) (next : Bool) :
    Option VarBind :=
  match handlers with
  | [] => (NewSubtree oid).map EndOfMibViewVarBind
  | h :: rest =>
      match h.H with
      | .subtree f =>
          if oid.length < h.Oid.length then none
          else if goStrLe (oid.take h.Oid.length) h.Oid then
            match NewSubtree oid with
            | none => none
            | some st =>
                let vb := f st next
                if vb.VType ≠ EndOfMibViewT then some vb else varSearch oid rest next
          else varSearch oid rest next
      | .point f =>
          if goStrLe oid h.Oid then
            if next then varSearch oid rest false
            else (NewSubtree h.Oid).map f
          else varSearch oid rest next

/-- `Connection.getNextVarBind`: bundle the subtree handlers and then the
point handlers into one list, sort it by key, and run `varSearch`.  (The
`next = false` correction for unregistered start OIDs is commented out in
the source and therefore absent here.) -/
def getNextVarBind (subs : List (GoStr × (Subtree → Bool → VarBind)))
    (points : List (GoStr × (Subtree → VarBind))) (oid : GoStr) (next : Bool) :
    Option VarBind :=
  let allH := subs.map (fun p => HandlerBundle.mk p.1 (.subtree p.2)) ++
              points.map (fun p => HandlerBundle.mk p.1 (.point p.2))
  varSearch oid (sortBundles allH) next

/-- TestSet result codes (`TestSetResult`). -/
def TestSetNoError : Int := 0

def TestSetWrongType : Int := 7

def TestSetResourceUnavailable : Int := 13

def TestSetNotWritable : Int := 17

/-- Sort the test-set handler pairs by key (string order). -/
def insertPair {α : Type} (h : GoStr × α) : List (GoStr × α) → List (GoStr × α)
  | [] => [h]
  | b :: bs => if goStrLe h.1 b.1 then h :: b :: bs else b :: insertPair h bs

def sortPairs {α : Type} : List (GoStr × α) → List (GoStr × α)
  | [] => []
  | h :: hs => insertPair h (sortPairs hs)

/-- The inner loop of `handleTestSet` for one VarBind: every handler whose
key is a string prefix of `v.Name.String()` overwrites the running error.
`none` models the `String()` panic on a name with no subidentifiers. -/
def testSetScanV (hbs : List (GoStr × (VarBind → Int → Int))) (v : VarBind)
    (sid : Int) (acc : Int) : Option Int :=
  match hbs with
  | [] => some acc
  | hb :: rest =>
      (subtreeString v.Name).bind fun vn =>
        testSetScanV rest v sid (if goHasPref vn hb.1 then wrap16 (hb.2 v sid) else acc)

/-- The outer loop of `handleTestSet` over the VarBind list. -/
def testSetScan (hbs : List (GoStr × (VarBind → Int → Int))) (sid : Int)
    (acc : Int) : List VarBind → Option Int
  | [] => some acc
  | v :: rest =>
      (testSetScanV hbs v sid acc).bind fun acc2 => testSetScan hbs sid acc2 rest

/-- `handleTestSet`: reply whose error starts at `ResourceUnavailable` and is
overwritten by every matching handler invocation, last write winning. -/
def handleTestSet (handlers : List (GoStr × (VarBind → Int → Int)))
    (sessionId : Int) (h : Header) (vbs : List VarBind) : Option Response :=
  (testSetScan (sortPairs handlers) sessionId TestSetResourceUnavailable vbs).map
    fun e =>
      { Hdr := { Version := 1, HType := ResponsePDU,
                 Flags := h.Flags &&& NetworkByteOrder, Rsvd := 0,
                 SessionId := sessionId, TransactionId := h.TransactionId,
                 PacketId := h.PacketId, PayloadLength := 8 },
        Payload := { SysUptime := 0, Error := e, Index := 0, VarBindList := [] } }

/-- `handleCommitSet`: calls `c.commitSetHandler(int(h.SessionId))` without a
nil check — `none` models the nil-function-call panic when no commit-set
handler was installed.  The handler's `CommitSetResult` (declared outside
the sources here) is modelled as an integer cast to `int16`. -/
def handleCommitSet (commitH : Option (Int → Int)) (sessionId : Int)
    (h : Header) : Option Response :=
  match commitH with
  | none => none
  | some f =>
      some { Hdr := { Version := 1, HType := ResponsePDU,
                      Flags := h.Flags &&& NetworkByteOrder, Rsvd := 0,
                      SessionId := sessionId, TransactionId := h.TransactionId,
                      PacketId := h.PacketId, PayloadLength := 8 },
             Payload := { SysUptime := 0, Error := wrap16 (f h.SessionId),
                          Index := 0, VarBindList := [] } }

/-- `handleCleanupSet`: also calls the singleton without a nil check. -/
def handleCleanupSet (cleanupH : Option (Int → Unit)) (h : Header) : Option Unit :=
  match cleanupH with
  | none => none
  | some f => some (f h.SessionId)

/-! ## Session-side send path (`sendMsg`, `doRegister`) -/

/-- The error values `sendMsg` can return. -/
inductive GoErr where
  | eof
  | errWrite
  deriving Repr, DecidableEq

/-- The Connection state `sendMsg` / `doRegister` read and write. -/
structure Conn where
  closed : Bool
  sessionId : Int
  registrations : List GoStr
  deriving Repr, DecidableEq

/-- `sendMsg` for a register message: `io.EOF` when the connection is marked
closed, a write error when the socket write fails, success otherwise
(marshalling a register message cannot fail). -/
def sendMsgRegister (c : Conn) (writeOk : Bool) (_ : RegisterMessage) :
    Except GoErr Unit :=
  if c.closed then .error .eof
  else if writeOk then .ok () else .error .errWrite

/-- `Connection.doRegister(oid, unregister)`: build the (un)register message,
stamp `PacketId` / `SessionId`, append the registration, call `sendMsg` —
and discard its result, returning `nil` unconditionally.  The outer `none`
models the nil dereference when message creation fails (the error is checked
only after `m.Header.PacketId` is assigned). -/
def doRegister (c : Conn) (writeOk : Bool) (oid : GoStr) (unregister : Bool) :
    Option (Conn × Option GoErr) :=
  let mm := if unregister then NewUnregisterMessage oid (some []) none
            else NewRegisterMessage oid (some []) none
  match mm with
  | none => none
  | some m =>
      let h2 := { m.Hdr with PacketId := ((c.registrations.length : Nat) : Int),
                             SessionId := c.sessionId }
      let m2 := { m with Hdr := h2 }
      let c2 := { c with registrations := c.registrations ++ [oid] }
      let _ := sendMsgRegister c2 writeOk m2
      some (c2, none)

/-- Invoke a point bundle's handler with its own key, as `varSearch` does. -/
def invokePoint (b : HandlerBundle) : Option VarBind :=
  match b.H with
  | .point f => (NewSubtree b.Oid).map f
  | .subtree _ => none

/-- The matching handler results, in iteration order (VarBinds outer, sorted
handlers inner) — the last of these is what the reply carries. -/
def testSetMatchList (hbs : List (GoStr × (VarBind → Int → Int))) (sid : Int)
    (vbs : List VarBind) : List Int :=
  (vbs.map fun v => hbs.filterMap fun hb =>
    if goHasPref ((subtreeString v.Name).getD []) hb.1 then some (wrap16 (hb.2 v sid))
    else none).flatten

/-! ## Concrete sample values used by the claim witnesses and counterexamples -/

/-- `"1.2.3.4.7"`. -/
def oidStr947 : GoStr := [49, 46, 50, 46, 51, 46, 52, 46, 55]

/-- `"muffin man"`. -/
def muffinStr : GoStr := [109, 117, 102, 102, 105, 110, 32, 109, 97, 110]

/-- `"pirates"`. -/
def piratesStr : GoStr := [112, 105, 114, 97, 116, 101, 115]

def sampleOpen : OpenMessage :=
  ⟨⟨1, 1, 16, 0, 0, 0, 0, 44⟩, 5, [0, 0, 0], ⟨5, 0, 0, 0, [1, 2, 3, 4, 7]⟩,
   NewOctetString muffinStr⟩

def sampleClose : CloseMessage := NewCloseMessage CloseReasonShutdown 47

def sampleReg : RegisterMessage :=
  ⟨⟨1, 3, 24, 0, 0, 47, 0, 40⟩, some (NewOctetString piratesStr), 10, 47, 0, 0,
   ⟨5, 0, 0, 0, [1, 2, 3, 4, 7]⟩, none⟩

def sampleVB : VarBind := OctetStringVarBind ⟨7, 0, 0, 0, [1, 3, 5, 1, 2, 1, 17]⟩ [204, 51]

def sampleResp : Response :=
  ⟨⟨1, 18, 16, 0, 1, 2, 3, 48⟩, ⟨0, 0, 0, [IntegerVarBind ⟨1, 0, 0, 0, [5]⟩ 47]⟩⟩

def sampleHdr : Header := ⟨1, 8, 16, 0, 5, 100, 200, 30⟩

/-! ## Theorems -/

/-! ### Round-trip facts for the integer primitives -/

theorem fromU32_u32be (n : Nat) (h : n < 4294967296) (rest : List Nat) :
    readU32 (u32be n ++ rest) = some (n, rest) := by
  simp only [u32be, List.cons_append, List.nil_append, readU32, Option.some.injEq,
    Prod.mk.injEq, fromU32]
  exact ⟨by omega, trivial⟩

theorem fromU16_u16be (n : Nat) (h : n < 65536) (rest : List Nat) :
    readU16 (u16be n ++ rest) = some (n, rest) := by
  simp only [u16be, List.cons_append, List.nil_append, readU16, Option.some.injEq,
    Prod.mk.injEq, fromU16]
  exact ⟨by omega, trivial⟩

theorem toU32_lt (i : Int) : toU32 i < 4294967296 := by
  unfold toU32; omega

theorem toU16_lt (i : Int) : toU16 i < 65536 := by
  unfold toU16; omega

theorem sign32_toU32 (i : Int) (h : int32Range i = true) : sign32 (toU32 i) = i := by
  simp only [int32Range, Bool.and_eq_true, decide_eq_true_eq] at h
  unfold sign32 toU32
  split <;> omega

theorem sign16_toU16 (i : Int) (h : int16Range i = true) : sign16 (toU16 i) = i := by
  simp only [int16Range, Bool.and_eq_true, decide_eq_true_eq] at h
  unfold sign16 toU16
  split <;> omega

theorem readI32_i32be (i : Int) (h : int32Range i = true) (rest : List Nat) :
    readI32 (i32be i ++ rest) = some (i, rest) := by
  simp only [readI32, i32be, fromU32_u32be (toU32 i) (toU32_lt i) rest, Option.map_some]
  exact congrArg _ (congrArg (fun x => (x, rest)) (sign32_toU32 i h))

theorem readI16_i16be (i : Int) (h : int16Range i = true) (rest : List Nat) :
    readI16 (i16be i ++ rest) = some (i, rest) := by
  simp only [readI16, i16be, fromU16_u16be (toU16 i) (toU16_lt i) rest, Option.map_some]
  exact congrArg _ (congrArg (fun x => (x, rest)) (sign16_toU16 i h))

theorem u32be_length (n : Nat) : (u32be n).length = 4 := rfl

theorem i32be_length (i : Int) : (i32be i).length = 4 := rfl

theorem i16be_length (i : Int) : (i16be i).length = 2 := rfl

theorem encList_i32be_length (xs : List Int) :
    (encList i32be xs).length = 4 * xs.length := by
  induction xs with
  | nil => rfl
  | cons x xs ih =>
      simp only [encList, List.length_append, i32be_length, ih, List.length_cons]
      ring

theorem readSubids_encList (xs : List Int) (hx : xs.all int32Range = true)
    (rest : List Nat) :
    readSubids xs.length (encList i32be xs ++ rest) = some (xs, rest) := by
  induction xs with
  | nil => rfl
  | cons x xs ih =>
      simp only [List.all_cons, Bool.and_eq_true] at hx
      simp only [List.length_cons, encList, List.append_assoc, readSubids,
        readI32_i32be x hx.1, Option.some_bind, ih hx.2, Option.map_some']

theorem subtreeMarshalLen (s : Subtree) :
    (s.marshalBinary).length = 4 + 4 * s.SubIdentifiers.length := by
  simp only [Subtree.marshalBinary, List.length_append, List.length_cons,
    List.length_nil, encList_i32be_length]

/-- Framing round-trip for the OID codec. -/
theorem subtreeDecodeEncode (s : Subtree) (h : s.wf = true) (rest : List Nat) :
    Subtree.unmarshalBinary (s.marshalBinary ++ rest) =
      some (4 + 4 * s.NSubid, s) := by
  simp only [Subtree.wf, Bool.and_eq_true, decide_eq_true_eq] at h
  obtain ⟨⟨⟨⟨⟨hlen, _⟩, _⟩, _⟩, _⟩, hall⟩ := h
  obtain ⟨n, p, z, r, subs⟩ := s
  simp only at hlen hall
  subst hlen
  simp only [Subtree.marshalBinary, List.cons_append, List.nil_append,
    Subtree.unmarshalBinary, readByte, Option.some_bind,
    readSubids_encList subs hall rest, Option.map_some']

theorem NewOctetString_spec (bs : List Nat) :
    NewOctetString bs =
      { OctetStringLength := (bs.length : Int),
        Octets := bs ++ List.replicate ((4 - bs.length % 4) % 4) 0 } := by
  simp only [NewOctetString, OctetString.pad]
  by_cases h0 : bs.length % 4 = 0
  · simp only [h0, if_pos rfl]
    have : (4 - bs.length % 4) % 4 = 0 := by omega
    simp [this]
  · have hne : bs.length ≠ 0 := by omega
    have : (4 - bs.length % 4) % 4 = 4 - bs.length % 4 := by omega
    simp [h0, hne, this]

theorem NewOctetString_wf (bs : List Nat) (h : bs.length < 2147483648) :
    (NewOctetString bs).wf = true := by
  rw [NewOctetString_spec]
  simp only [OctetString.wf, Bool.and_eq_true, decide_eq_true_eq]
  refine ⟨⟨⟨by positivity, ?_⟩, ?_⟩, ?_⟩
  · simpa using h
  · simp only [Int.toNat_natCast, List.length_append, List.length_replicate]
  · simp only [Int.toNat_natCast, List.drop_append_of_le_length (le_refl _),
      List.drop_length, List.nil_append]

theorem OctetString.pad_of_aligned (s : OctetString) (h : s.Octets.length % 4 = 0) :
    s.pad = (s, 0) := by
  simp [OctetString.pad, h]

/-- For a well-formed octet string the stored octets are already padded, so
`MarshalBinary` is the length field followed by the stored octets. -/
theorem OctetString.marshal_of_wf (s : OctetString) (h : s.wf = true) :
    s.marshalBinary = i32be s.OctetStringLength ++ s.Octets := by
  simp only [OctetString.wf, Bool.and_eq_true, decide_eq_true_eq] at h
  have halign : s.Octets.length % 4 = 0 := by omega
  simp only [OctetString.marshalBinary, OctetString.pad_of_aligned s halign]

theorem OctetString.marshal_length_of_wf (s : OctetString) (h : s.wf = true) :
    (s.marshalBinary).length =
      4 + s.OctetStringLength.toNat + (4 - s.OctetStringLength.toNat % 4) % 4 := by
  rw [OctetString.marshal_of_wf s h]
  simp only [OctetString.wf, Bool.and_eq_true, decide_eq_true_eq] at h
  simp only [List.length_append, i32be_length]
  omega

/-- Evaluate `Pad` on an explicit structure literal. -/
theorem OctetString.pad_eval (L : Int) (t : List Nat) :
    OctetString.pad ⟨L, t⟩ =
      if t.length % 4 = 0 then (⟨L, t⟩, 0)
      else (⟨L, t ++ List.replicate (4 - t.length % 4) 0⟩,
            ((4 - t.length % 4 : Nat) : Int)) := by
  by_cases hmod : t.length % 4 = 0
  · simp [OctetString.pad, hmod]
  · have hne : ¬ t.length = 0 := by omega
    simp [OctetString.pad, hmod, hne]

/-- Framing round-trip for the octet-string codec: decoding the encoding of a
well-formed octet string restores it and consumes the whole field, pad
included. -/
theorem octetStringDecodeEncode (s : OctetString) (h : s.wf = true)
    (rest : List Nat) :
    OctetString.unmarshalBinary (s.marshalBinary ++ rest) =
      some (((s.marshalBinary).length : Int), s) := by
  have hlen := OctetString.marshal_length_of_wf s h
  rw [OctetString.marshal_of_wf s h] at hlen ⊢
  rw [List.append_assoc]
  simp only [OctetString.wf, Bool.and_eq_true, decide_eq_true_eq] at h
  obtain ⟨⟨⟨h0, h31⟩, hoct⟩, hdrop⟩ := h
  obtain ⟨L, octs⟩ := s
  simp only at h0 h31 hoct hdrop hlen
  have hrange : int32Range L = true := by
    simp only [int32Range, Bool.and_eq_true, decide_eq_true_eq]
    omega
  simp only [OctetString.unmarshalBinary, readI32_i32be _ hrange, Option.some_bind]
  have hcnt : L.toNat ≤ octs.length := by omega
  have hnolt : ¬ ((octs ++ rest).length < L.toNat) := by
    simp only [List.length_append]; omega
  rw [if_neg hnolt]
  have htake : (octs ++ rest).take L.toNat = octs.take L.toNat :=
    List.take_append_of_le_length hcnt
  rw [htake, OctetString.pad_eval]
  have htlen : (octs.take L.toNat).length = L.toNat := by
    rw [List.length_take]; omega
  rw [htlen]
  by_cases hmod : L.toNat % 4 = 0
  · rw [if_pos hmod]
    have hfull : octs.take L.toNat = octs := by
      apply List.take_of_length_le; omega
    rw [hfull]
    simp only [Option.some.injEq, Prod.mk.injEq]
    refine ⟨?_, trivial⟩
    rw [hlen]
    push_cast
    omega
  · rw [if_neg hmod]
    have hsplit := List.take_append_drop L.toNat octs
    rw [hdrop] at hsplit
    have hpadeq : (4 - L.toNat % 4) % 4 = 4 - L.toNat % 4 := by omega
    rw [hpadeq] at hsplit
    simp only [Option.some.injEq, Prod.mk.injEq, OctetString.mk.injEq]
    exact ⟨by rw [hlen]; push_cast; omega, trivial, hsplit⟩

theorem List.drop_exact {α : Type} (l₁ l₂ : List α) (n : Nat) (h : l₁.length = n) :
    (l₁ ++ l₂).drop n = l₂ := by
  subst h
  simp

/-- Round-trip / wire-size agreement for VarBinds: a well-formed VarBind
marshals successfully, its `WireSize` equals the marshalled length, and
decoding the marshalled bytes (before any suffix) restores it exactly. -/
theorem VarBind.roundtrip (v : VarBind) (h : v.wf = true) :
    ∃ out : List Nat, v.marshalBinary = some out ∧
      v.wireSize = some ((out.length : Int)) ∧
      ∀ rest : List Nat, ∃ n : Nat,
        VarBind.unmarshalBinary (out ++ rest) = some (n, v) := by
  obtain ⟨vt, rz, name, data⟩ := v
  simp only [VarBind.wf, Bool.and_eq_true] at h
  obtain ⟨⟨⟨ht, hr⟩, hn⟩, hd⟩ := h
  have hnlen : (name.marshalBinary).length = 4 + 4 * name.SubIdentifiers.length :=
    subtreeMarshalLen name
  have hns : name.NSubid = name.SubIdentifiers.length := by
    simp only [Subtree.wf, Bool.and_eq_true, decide_eq_true_eq] at hn
    exact hn.1.1.1.1.1
  have e21 : ¬ ((Gauge32T : Int) = IntegerT) := by decide
  have e22 : ¬ ((Gauge32T : Int) = OctetStringT) := by decide
  have e11 : ¬ ((OctetStringT : Int) = IntegerT) := by decide
  cases data with
  | DInt i =>
      simp only [Bool.and_eq_true, decide_eq_true_eq] at hd
      obtain ⟨hvt, hi⟩ := hd
      subst hvt
      refine ⟨i16be IntegerT ++ (i16be rz ++ (name.marshalBinary ++ i32be i)),
        by simp [VarBind.marshalBinary], ?_, ?_⟩
      · simp only [VarBind.wireSize, Subtree.wireSize, if_pos rfl,
          List.length_append, i16be_length, hnlen, i32be_length]
        refine congrArg some ?_
        push_cast
        omega
      · intro rest
        refine ⟨4 + (4 + 4 * name.NSubid) + 4, ?_⟩
        have hdrop : List.drop (4 + (4 + 4 * name.NSubid))
            (i16be IntegerT ++ (i16be rz ++ (name.marshalBinary ++ (i32be i ++ rest))))
            = i32be i ++ rest := by
          rw [← List.append_assoc, ← List.append_assoc]
          exact List.drop_exact _ _ _ (by
            simp only [List.length_append, i16be_length, hnlen, hns]
            try omega)
        simp only [List.append_assoc, VarBind.unmarshalBinary, readI16_i16be _ ht,
          Option.some_bind, readI16_i16be _ hr, subtreeDecodeEncode name hn,
          if_pos rfl, if_true, hdrop, readI32_i32be _ hi, Option.map_some']
  | DOctet s =>
      simp only [Bool.and_eq_true, decide_eq_true_eq] at hd
      obtain ⟨hvt, hs⟩ := hd
      subst hvt
      refine ⟨i16be OctetStringT ++ (i16be rz ++ (name.marshalBinary ++ s.marshalBinary)),
        by simp [VarBind.marshalBinary, if_neg e11], ?_, ?_⟩
      · simp only [VarBind.wireSize, Subtree.wireSize, if_neg e11, if_pos rfl,
          List.length_append, i16be_length, hnlen,
          OctetString.marshal_length_of_wf s hs]
        refine congrArg some ?_
        simp only [OctetString.wf, Bool.and_eq_true, decide_eq_true_eq] at hs
        push_cast
        omega
      · intro rest
        refine ⟨4 + (4 + 4 * name.NSubid), ?_⟩
        have hdrop : List.drop (4 + (4 + 4 * name.NSubid))
            (i16be OctetStringT ++ (i16be rz ++ (name.marshalBinary ++ (s.marshalBinary ++ rest))))
            = s.marshalBinary ++ rest := by
          rw [← List.append_assoc, ← List.append_assoc]
          exact List.drop_exact _ _ _ (by
            simp only [List.length_append, i16be_length, hnlen, hns]
            try omega)
        simp only [List.append_assoc, VarBind.unmarshalBinary, readI16_i16be _ ht,
          Option.some_bind, readI16_i16be _ hr, subtreeDecodeEncode name hn,
          if_neg e11, if_pos rfl, if_true, hdrop, octetStringDecodeEncode s hs,
          Option.map_some']
  | DGauge g =>
      simp only [Bool.and_eq_true, decide_eq_true_eq] at hd
      obtain ⟨hvt, hg⟩ := hd
      subst hvt
      have hmod : g % 4294967296 = g := Nat.mod_eq_of_lt hg
      refine ⟨i16be Gauge32T ++ (i16be rz ++ (name.marshalBinary ++ u32be (g % 4294967296))),
        by simp [VarBind.marshalBinary, if_neg e21, if_neg e22], ?_, ?_⟩
      · simp only [VarBind.wireSize, Subtree.wireSize, if_neg e21, if_neg e22,
          if_pos rfl, List.length_append, i16be_length, hnlen, u32be_length]
        refine congrArg some ?_
        push_cast
        omega
      · intro rest
        refine ⟨4 + (4 + 4 * name.NSubid) + 4, ?_⟩
        have hdrop : List.drop (4 + (4 + 4 * name.NSubid))
            (i16be Gauge32T ++ (i16be rz ++ (name.marshalBinary ++ (u32be (g % 4294967296) ++ rest))))
            = u32be (g % 4294967296) ++ rest := by
          rw [← List.append_assoc, ← List.append_assoc]
          exact List.drop_exact _ _ _ (by
            simp only [List.length_append, i16be_length, hnlen, hns]
            try omega)
        rw [hmod] at hdrop
        simp only [List.append_assoc, VarBind.unmarshalBinary, readI16_i16be _ ht,
          Option.some_bind, readI16_i16be _ hr, subtreeDecodeEncode name hn,
          if_neg e21, if_neg e22, if_pos rfl, if_true, hmod, hdrop, fromU32_u32be g hg,
          Option.map_some']
  | DNone =>
      simp only [Bool.and_eq_true, decide_eq_true_eq] at hd
      obtain ⟨⟨h1, h2⟩, h3⟩ := hd
      refine ⟨i16be vt ++ (i16be rz ++ name.marshalBinary),
        by simp [VarBind.marshalBinary, if_neg h1, if_neg h2, if_neg h3], ?_, ?_⟩
      · simp only [VarBind.wireSize, Subtree.wireSize, if_neg h1, if_neg h2, if_neg h3,
          List.length_append, i16be_length, hnlen]
        refine congrArg some ?_
        push_cast
        omega
      · intro rest
        refine ⟨4 + (4 + 4 * name.NSubid), ?_⟩
        simp only [List.append_assoc, VarBind.unmarshalBinary, readI16_i16be _ ht,
          Option.some_bind, readI16_i16be _ hr, subtreeDecodeEncode name hn,
          if_neg h1, if_neg h2, if_neg h3]

theorem headerMarshalLen (h : Header) : (h.marshalBinary).length = 20 := by
  simp [Header.marshalBinary, i32be_length]

/-- Framing round-trip for the header codec. -/
theorem headerDecodeEncode (h : Header) (hw : h.wf = true) (rest : List Nat) :
    Header.unmarshalBinary (h.marshalBinary ++ rest) = some (20, h) := by
  simp only [Header.wf, Bool.and_eq_true, decide_eq_true_eq] at hw
  obtain ⟨⟨⟨⟨⟨⟨⟨hv, htp⟩, hf⟩, hrz⟩, hs⟩, ht⟩, hp⟩, hl⟩ := hw
  simp only [Header.marshalBinary, List.cons_append, List.nil_append, List.append_assoc,
    Header.unmarshalBinary, readByte, Option.some_bind,
    readI32_i32be _ hs, readI32_i32be _ ht, readI32_i32be _ hp, readI32_i32be _ hl,
    Option.map_some']

/-! ### Round-trips of the messages -/

theorem openDecodeEncode (m : OpenMessage) (h : m.wf = true)
    (rest : List Nat) :
    ∃ n : Int, OpenMessage.unmarshalBinary (m.marshalBinary ++ rest) = some (n, m) := by
  simp only [OpenMessage.wf, Bool.and_eq_true, decide_eq_true_eq] at h
  obtain ⟨⟨⟨⟨hh, htm⟩, hrs⟩, hid⟩, hdsc⟩ := h
  refine ⟨24 + ((4 + 4 * m.Id.NSubid : Nat) : Int) + ((m.Desc.marshalBinary.length : Nat) : Int), ?_⟩
  have hidlen : (m.Id.marshalBinary).length = 4 + 4 * m.Id.SubIdentifiers.length :=
    subtreeMarshalLen m.Id
  have hns : m.Id.NSubid = m.Id.SubIdentifiers.length := by
    simp only [Subtree.wf, Bool.and_eq_true, decide_eq_true_eq] at hid
    exact hid.1.1.1.1.1
  have hd20 : (m.marshalBinary ++ rest).drop 20 =
      m.Timeout :: m.Rsvd3 ++ (m.Id.marshalBinary ++ (m.Desc.marshalBinary ++ rest)) := by
    simp only [OpenMessage.marshalBinary, List.append_assoc]
    exact List.drop_exact _ _ _ (headerMarshalLen m.Hdr)
  have hd24 : (m.marshalBinary ++ rest).drop 24 =
      m.Id.marshalBinary ++ (m.Desc.marshalBinary ++ rest) := by
    simp only [OpenMessage.marshalBinary, List.append_assoc, hrs]
    rw [show m.Hdr.marshalBinary ++ (m.Timeout :: [0, 0, 0] ++
        (m.Id.marshalBinary ++ (m.Desc.marshalBinary ++ rest))) =
        (m.Hdr.marshalBinary ++ m.Timeout :: [0, 0, 0]) ++
        (m.Id.marshalBinary ++ (m.Desc.marshalBinary ++ rest)) by
      simp [List.append_assoc]]
    exact List.drop_exact _ _ _ (by
      simp [List.length_append, headerMarshalLen])
  have hdid : (m.marshalBinary ++ rest).drop (24 + (4 + 4 * m.Id.NSubid)) =
      m.Desc.marshalBinary ++ rest := by
    simp only [OpenMessage.marshalBinary, List.append_assoc, hrs]
    rw [show m.Hdr.marshalBinary ++ (m.Timeout :: [0, 0, 0] ++
        (m.Id.marshalBinary ++ (m.Desc.marshalBinary ++ rest))) =
        (m.Hdr.marshalBinary ++ m.Timeout :: [0, 0, 0] ++ m.Id.marshalBinary) ++
        (m.Desc.marshalBinary ++ rest) by
      simp [List.append_assoc]]
    exact List.drop_exact _ _ _ (by
      simp [List.length_append, headerMarshalLen, hidlen, hns]
      omega)
  simp only [OpenMessage.unmarshalBinary, Option.some_bind,
    show (m.marshalBinary ++ rest) = m.Hdr.marshalBinary ++
      (m.Timeout :: m.Rsvd3 ++ (m.Id.marshalBinary ++ (m.Desc.marshalBinary ++ rest)))
      by simp [OpenMessage.marshalBinary, List.append_assoc],
    headerDecodeEncode m.Hdr hh]
  rw [show m.Hdr.marshalBinary ++ (m.Timeout :: m.Rsvd3 ++
      (m.Id.marshalBinary ++ (m.Desc.marshalBinary ++ rest))) = m.marshalBinary ++ rest
    by simp [OpenMessage.marshalBinary, List.append_assoc]]
  rw [hd20, hd24]
  simp only [List.cons_append, readByte, Option.some_bind,
    subtreeDecodeEncode m.Id hid, hdid,
    octetStringDecodeEncode m.Desc hdsc, Option.map_some']
  rw [← hrs]

theorem closeDecodeEncode (m : CloseMessage) (h : m.wf = true)
    (rest : List Nat) :
    CloseMessage.unmarshalBinary (m.marshalBinary ++ rest) = some (24, m) := by
  simp only [CloseMessage.wf, Bool.and_eq_true, decide_eq_true_eq] at h
  obtain ⟨⟨hh, hrn⟩, hrs⟩ := h
  have hd20 : (m.marshalBinary ++ rest).drop 20 = m.Reason :: (m.Rsvd3 ++ rest) := by
    simp only [CloseMessage.marshalBinary, List.append_assoc, List.cons_append]
    exact List.drop_exact _ _ _ (headerMarshalLen m.Hdr)
  simp only [CloseMessage.unmarshalBinary,
    show (m.marshalBinary ++ rest) = m.Hdr.marshalBinary ++
      (m.Reason :: (m.Rsvd3 ++ rest))
      by simp [CloseMessage.marshalBinary, List.append_assoc],
    headerDecodeEncode m.Hdr hh, Option.some_bind]
  rw [show m.Hdr.marshalBinary ++ (m.Reason :: (m.Rsvd3 ++ rest)) =
      m.marshalBinary ++ rest by simp [CloseMessage.marshalBinary, List.append_assoc]]
  rw [hd20]
  simp only [readByte, Option.map_some']
  rw [← hrs]

theorem responseDecodeEncode (m : Response) (h : m.wf = true) :
    ∀ out : List Nat, m.marshalBinary = some out → ∀ rest : List Nat,
      Response.unmarshalBinary (out ++ rest) =
        some (28, ⟨m.Hdr, ⟨m.Payload.SysUptime, m.Payload.Error, m.Payload.Index, []⟩⟩) := by
  simp only [Response.wf, Bool.and_eq_true, decide_eq_true_eq] at h
  obtain ⟨⟨⟨⟨hh, hu⟩, he⟩, hx⟩, _⟩ := h
  intro out hout rest
  simp only [Response.marshalBinary] at hout
  obtain ⟨vbs, hvbs, rfl⟩ : ∃ vbs, marshalVarBindList m.Payload.VarBindList = some vbs ∧
      out = m.Hdr.marshalBinary ++ i32be m.Payload.SysUptime ++
        i16be m.Payload.Error ++ i16be m.Payload.Index ++ vbs := by
    cases hm : marshalVarBindList m.Payload.VarBindList with
    | none => rw [hm] at hout; exact absurd hout (by simp)
    | some vbs =>
        rw [hm] at hout
        simp only [Option.map_some', Option.some.injEq] at hout
        exact ⟨vbs, rfl, hout.symm⟩
  have hd20 : ((m.Hdr.marshalBinary ++ i32be m.Payload.SysUptime ++
      i16be m.Payload.Error ++ i16be m.Payload.Index ++ vbs) ++ rest).drop 20 =
      i32be m.Payload.SysUptime ++ (i16be m.Payload.Error ++
        (i16be m.Payload.Index ++ (vbs ++ rest))) := by
    simp only [List.append_assoc]
    exact List.drop_exact _ _ _ (headerMarshalLen m.Hdr)
  simp only [Response.unmarshalBinary,
    show ((m.Hdr.marshalBinary ++ i32be m.Payload.SysUptime ++
      i16be m.Payload.Error ++ i16be m.Payload.Index ++ vbs) ++ rest) =
      m.Hdr.marshalBinary ++ (i32be m.Payload.SysUptime ++ (i16be m.Payload.Error ++
        (i16be m.Payload.Index ++ (vbs ++ rest)))) by simp [List.append_assoc],
    headerDecodeEncode m.Hdr hh, Option.some_bind]
  rw [show m.Hdr.marshalBinary ++ (i32be m.Payload.SysUptime ++ (i16be m.Payload.Error ++
      (i16be m.Payload.Index ++ (vbs ++ rest)))) =
      (m.Hdr.marshalBinary ++ i32be m.Payload.SysUptime ++
        i16be m.Payload.Error ++ i16be m.Payload.Index ++ vbs) ++ rest
    by simp [List.append_assoc]]
  rw [hd20]
  simp only [ResponsePayload.unmarshalBinary, readI32_i32be _ hu, Option.some_bind,
    readI16_i16be _ he, readI16_i16be _ hx, Option.map_some']

theorem registerDecodeEncode (m : RegisterMessage) (h : m.wf = true)
    (rest : List Nat) :
    ∃ n : Int, RegisterMessage.unmarshalBinary (m.marshalBinary ++ rest) = some (n, m) := by
  simp only [RegisterMessage.wf, Bool.and_eq_true, decide_eq_true_eq] at h
  obtain ⟨⟨⟨⟨⟨⟨⟨hh, htm⟩, hpr⟩, hrg⟩, hrv⟩, hsub⟩, hub⟩, hctx⟩ := h
  have hsublen : (m.Subtr.marshalBinary).length = 4 + 4 * m.Subtr.SubIdentifiers.length :=
    subtreeMarshalLen m.Subtr
  -- the context field bytes and their length
  have hmar : m.marshalBinary = m.Hdr.marshalBinary ++
      ((match m.Context with | some c => c.marshalBinary | none => []) ++
        ([m.Timeout, m.Priority, m.RangeSubid, m.Rsvd] ++
          (m.Subtr.marshalBinary ++
            (match m.UpperBound with | some ub => i32be ub | none => [])))) := by
    simp [RegisterMessage.marshalBinary, List.append_assoc]
  cases hc : m.Context with
  | some c =>
      rw [hc] at hmar hctx
      simp only [Bool.and_eq_true, decide_eq_true_eq] at hctx
      obtain ⟨hcw, hflag⟩ := hctx
      rw [hub] at hmar
      simp only [List.append_nil] at hmar
      refine ⟨20 + ((c.marshalBinary.length : Nat) : Int) + 4 + (4 + 4 * m.Subtr.NSubid), ?_⟩
      have hstep : (m.marshalBinary ++ rest) = m.Hdr.marshalBinary ++
          (c.marshalBinary ++ ([m.Timeout, m.Priority, m.RangeSubid, m.Rsvd] ++
            (m.Subtr.marshalBinary ++ rest))) := by
        rw [hmar]; simp [List.append_assoc]
      simp only [RegisterMessage.unmarshalBinary, hstep,
        headerDecodeEncode m.Hdr hh, Option.some_bind, if_pos hflag]
      have hd20 : (m.Hdr.marshalBinary ++
          (c.marshalBinary ++ ([m.Timeout, m.Priority, m.RangeSubid, m.Rsvd] ++
            (m.Subtr.marshalBinary ++ rest)))).drop 20 =
          c.marshalBinary ++ ([m.Timeout, m.Priority, m.RangeSubid, m.Rsvd] ++
            (m.Subtr.marshalBinary ++ rest)) :=
        List.drop_exact _ _ _ (headerMarshalLen m.Hdr)
      rw [hd20]
      simp only [octetStringDecodeEncode c hcw, Option.map_some', Option.some_bind]
      have hdctx : (m.Hdr.marshalBinary ++
          (c.marshalBinary ++ ([m.Timeout, m.Priority, m.RangeSubid, m.Rsvd] ++
            (m.Subtr.marshalBinary ++ rest)))).drop
              ((20 + ((c.marshalBinary.length : Nat) : Int)).toNat) =
          [m.Timeout, m.Priority, m.RangeSubid, m.Rsvd] ++
            (m.Subtr.marshalBinary ++ rest) := by
        rw [show m.Hdr.marshalBinary ++
            (c.marshalBinary ++ ([m.Timeout, m.Priority, m.RangeSubid, m.Rsvd] ++
              (m.Subtr.marshalBinary ++ rest))) =
            (m.Hdr.marshalBinary ++ c.marshalBinary) ++
              ([m.Timeout, m.Priority, m.RangeSubid, m.Rsvd] ++
                (m.Subtr.marshalBinary ++ rest)) by simp [List.append_assoc]]
        exact List.drop_exact _ _ _ (by
          simp only [List.length_append, headerMarshalLen]
          omega)
      rw [hdctx]
      simp only [List.cons_append, List.nil_append, readByte, Option.some_bind,
        subtreeDecodeEncode m.Subtr hsub, Option.map_some', hrg]
      rw [if_neg (by simp)]
      refine congrArg some (Prod.ext ?_ ?_)
      · simp only
        push_cast
        ring
      · simp only
        rw [← hc, ← hrg, ← hub]
  | none =>
      rw [hc] at hmar hctx
      simp only [decide_eq_true_eq] at hctx
      rw [hub] at hmar
      simp only [List.nil_append, List.append_nil] at hmar
      refine ⟨20 + 0 + 4 + (4 + 4 * m.Subtr.NSubid), ?_⟩
      have hstep : (m.marshalBinary ++ rest) = m.Hdr.marshalBinary ++
          ([m.Timeout, m.Priority, m.RangeSubid, m.Rsvd] ++
            (m.Subtr.marshalBinary ++ rest)) := by
        rw [hmar]; simp [List.append_assoc]
      simp only [RegisterMessage.unmarshalBinary, hstep,
        headerDecodeEncode m.Hdr hh, Option.some_bind, hctx]
      rw [if_neg (by simp)]
      simp only [Option.some_bind]
      have hd20 : (m.Hdr.marshalBinary ++
          ([m.Timeout, m.Priority, m.RangeSubid, m.Rsvd] ++
            (m.Subtr.marshalBinary ++ rest))).drop ((20 : Int) + 0).toNat =
          [m.Timeout, m.Priority, m.RangeSubid, m.Rsvd] ++
            (m.Subtr.marshalBinary ++ rest) :=
        List.drop_exact _ _ _ (by simp [headerMarshalLen])
      rw [hd20]
      simp only [List.cons_append, List.nil_append, readByte, Option.some_bind,
        subtreeDecodeEncode m.Subtr hsub, Option.map_some', hrg]
      rw [if_neg (by simp)]
      refine congrArg some (Prod.ext ?_ ?_)
      · simp only
        push_cast
        ring
      · simp only
        rw [← hc, ← hrg, ← hub]

/-! ### Sorting preserves membership -/

theorem mem_insertBundle {b h : HandlerBundle} {l : List HandlerBundle} :
    b ∈ insertBundle h l ↔ b = h ∨ b ∈ l := by
  induction l with
  | nil => simp [insertBundle]
  | cons x xs ih =>
      simp only [insertBundle]
      by_cases hc : goStrLe h.Oid x.Oid = true
      · simp [hc]
      · rw [if_neg hc]
        simp only [List.mem_cons, ih]
        tauto

theorem mem_sortBundles {b : HandlerBundle} {l : List HandlerBundle} :
    b ∈ sortBundles l ↔ b ∈ l := by
  induction l with
  | nil => simp [sortBundles]
  | cons x xs ih =>
      simp only [sortBundles, mem_insertBundle, ih, List.mem_cons]

/-! ### `varSearch` over point-only handler lists -/

/-- With `next = false` (the Get path), the first point handler whose key is
`>= oid` in list order is invoked with its own key. -/
theorem varSearch_points_exact (o : GoStr) (hs : List HandlerBundle)
    (hp : ∀ b ∈ hs, b.isPoint = true) :
    varSearch o hs false =
      match hs.filter (fun b => goStrLe o b.Oid) with
      | [] => (NewSubtree o).map EndOfMibViewVarBind
      | b :: _ => invokePoint b := by
  induction hs with
  | nil => simp [varSearch]
  | cons h rest ih =>
      have hph := hp h (by simp)
      obtain ⟨oidh, hh⟩ := h
      cases hh with
      | subtree f => simp [HandlerBundle.isPoint] at hph
      | point f =>
          simp only [varSearch, List.filter_cons]
          by_cases hle : goStrLe o oidh = true
          · simp only [hle, if_pos rfl, if_true]
            rfl
          · have hle' : goStrLe o ({ Oid := oidh, H := .point f } : HandlerBundle).Oid = false :=
              Bool.eq_false_iff.mpr hle
            simp only [hle']
            rw [if_neg (by simp [hle'])]
            exact ih (fun b hb => hp b (by simp [hb]))

/-- With `next = true` (the GetNext path), the *first* point handler whose
key is `>= oid` only consumes the flag — even when its key is strictly
greater than `oid` — and the *second* such handler is invoked. -/
theorem varSearch_points_skip (o : GoStr) (hs : List HandlerBundle)
    (hp : ∀ b ∈ hs, b.isPoint = true) :
    varSearch o hs true =
      match hs.filter (fun b => goStrLe o b.Oid) with
      | [] => (NewSubtree o).map EndOfMibViewVarBind
      | [_] => (NewSubtree o).map EndOfMibViewVarBind
      | _ :: b :: _ => invokePoint b := by
  induction hs with
  | nil => simp [varSearch]
  | cons h rest ih =>
      have hph := hp h (by simp)
      obtain ⟨oidh, hh⟩ := h
      cases hh with
      | subtree f => simp [HandlerBundle.isPoint] at hph
      | point f =>
          simp only [varSearch, List.filter_cons]
          by_cases hle : goStrLe o oidh = true
          · simp only [hle, if_pos rfl, if_true]
            rw [varSearch_points_exact o rest (fun b hb => hp b (by simp [hb]))]
            cases hrf : rest.filter (fun b => goStrLe o b.Oid) with
            | nil => rfl
            | cons b bs => rfl
          · have hle' : goStrLe o ({ Oid := oidh, H := .point f } : HandlerBundle).Oid = false :=
              Bool.eq_false_iff.mpr hle
            simp only [hle']
            rw [if_neg (by simp [hle'])]
            exact ih (fun b hb => hp b (by simp [hb]))

/-- When every handler is a point handler whose key is strictly below the
target (string order), `varSearch` falls off the end: EndOfMibView on `o`. -/
theorem varSearch_all_below (o : GoStr) (hs : List HandlerBundle) (next : Bool)
    (hp : ∀ b ∈ hs, b.isPoint = true)
    (hlt : ∀ b ∈ hs, goStrLt b.Oid o = true) :
    varSearch o hs next = (NewSubtree o).map EndOfMibViewVarBind := by
  induction hs generalizing next with
  | nil => simp [varSearch]
  | cons h rest ih =>
      have hph := hp h (by simp)
      have hlh := hlt h (by simp)
      obtain ⟨oidh, hh⟩ := h
      cases hh with
      | subtree f => simp [HandlerBundle.isPoint] at hph
      | point f =>
          simp only at hlh
          have hle : goStrLe o oidh = false := by
            simp only [goStrLe, hlh, Bool.not_true]
          simp only [varSearch, hle]
          rw [if_neg (by simp)]
          exact ih next (fun b hb => hp b (by simp [hb]))
            (fun b hb => hlt b (by simp [hb]))

/-! ### `handleTestSet` characterization -/

theorem getLast?_getD_cons {α : Type} (a d : α) (l : List α) :
    ((a :: l).getLast?).getD d = (l.getLast?).getD a := by
  cases l with
  | nil => rfl
  | cons b bs =>
      rw [List.getLast?_cons_cons]
      have hsome : ((b :: bs).getLast?).isSome := by
        rw [List.getLast?_isSome]
        simp
      obtain ⟨x, hx⟩ := Option.isSome_iff_exists.mp hsome
      rw [hx]
      rfl

theorem getLast?_getD_append {α : Type} (l1 l2 : List α) (d : α) :
    ((l1 ++ l2).getLast?).getD d = (l2.getLast?).getD ((l1.getLast?).getD d) := by
  induction l1 generalizing d with
  | nil => rfl
  | cons a l1 ih =>
      rw [List.cons_append, getLast?_getD_cons, ih, getLast?_getD_cons]

theorem testSetScanV_char (hbs : List (GoStr × (VarBind → Int → Int)))
    (v : VarBind) (sid : Int) (acc : Int) (vn : GoStr)
    (hvn : subtreeString v.Name = some vn) :
    testSetScanV hbs v sid acc =
      some (((hbs.filterMap fun hb =>
        if goHasPref vn hb.1 then some (wrap16 (hb.2 v sid))
        else none).getLast?).getD acc) := by
  induction hbs generalizing acc with
  | nil => rfl
  | cons hb rest ih =>
      simp only [testSetScanV, hvn, Option.some_bind, List.filterMap_cons]
      by_cases hpref : goHasPref vn hb.1 = true
      · simp [hpref, ih, getLast?_getD_cons]
      · simp [hpref, ih]

theorem testSetScan_char (hbs : List (GoStr × (VarBind → Int → Int))) (sid : Int)
    (vbs : List VarBind) (acc : Int)
    (hnames : ∀ v ∈ vbs, v.Name.SubIdentifiers ≠ []) :
    testSetScan hbs sid acc vbs =
      some (((testSetMatchList hbs sid vbs).getLast?).getD acc) := by
  induction vbs generalizing acc with
  | nil => rfl
  | cons v rest ih =>
      obtain ⟨vn, hvn⟩ : ∃ vn, subtreeString v.Name = some vn := by
        unfold subtreeString
        cases hs : v.Name.SubIdentifiers with
        | nil => exact absurd hs (hnames v (by simp))
        | cons x r => exact ⟨_, rfl⟩
      have hgetd : (subtreeString v.Name).getD [] = vn := by rw [hvn]; rfl
      simp only [testSetScan, testSetScanV_char hbs v sid acc vn hvn,
        Option.some_bind]
      rw [ih _ (fun w hw => hnames w (by simp [hw]))]
      simp only [testSetMatchList, List.map_cons, List.flatten_cons, hgetd]
      rw [getLast?_getD_append]

/-! ## Claim theorems -/

/-- C1 (amended): decoding the bytes produced by `MarshalBinary` restores the
message bit-exact for well-formed Open, Close, Register and Unregister
messages (the register shape covers both types; range/upper-bound absent, as
the constructors build them) and for VarBinds of the implemented payload
kinds — in particular an OctetString VarBind decodes back to the same name
and logical octets.  For a Response, the header and the fixed payload fields
decode back, but the decoder never reads the VarBind list: the decoded list
is always empty, so Response PDUs with VarBinds do *not* round-trip. -/
theorem claim_C1_roundtrip :
    (∀ m : OpenMessage, m.wf = true → ∀ rest, ∃ n : Int,
       OpenMessage.unmarshalBinary (m.marshalBinary ++ rest) = some (n, m)) ∧
    (∀ m : CloseMessage, m.wf = true → ∀ rest,
       CloseMessage.unmarshalBinary (m.marshalBinary ++ rest) = some (24, m)) ∧
    (∀ m : RegisterMessage, m.wf = true → ∀ rest, ∃ n : Int,
       RegisterMessage.unmarshalBinary (m.marshalBinary ++ rest) = some (n, m)) ∧
    (∀ v : VarBind, v.wf = true → ∃ out, v.marshalBinary = some out ∧
       ∀ rest, ∃ n : Nat, VarBind.unmarshalBinary (out ++ rest) = some (n, v)) ∧
    (∀ m : Response, m.wf = true → ∀ out, m.marshalBinary = some out → ∀ rest,
       Response.unmarshalBinary (out ++ rest) =
         some (28, ⟨m.Hdr, ⟨m.Payload.SysUptime, m.Payload.Error, m.Payload.Index, []⟩⟩)) := by
  refine ⟨openDecodeEncode, closeDecodeEncode,
    registerDecodeEncode, ?_, responseDecodeEncode⟩
  intro v hv
  obtain ⟨out, h1, _, h3⟩ := VarBind.roundtrip v hv
  exact ⟨out, h1, h3⟩

/-- C1 witness: the round-trip at the repository's own test inputs — the
Open message for id `1.2.3.4.7` / description `"muffin man"`, the Shutdown
Close for session 47, the Register for `1.2.3.4.7` with context
`"pirates"`, and the `[0xCC, 0x33]` OctetString VarBind of scenario S4. -/
theorem claim_C1_roundtrip_witness :
    (∃ n : Int, OpenMessage.unmarshalBinary (sampleOpen.marshalBinary ++ []) =
       some (n, sampleOpen)) ∧
    (CloseMessage.unmarshalBinary (sampleClose.marshalBinary ++ []) =
       some (24, sampleClose)) ∧
    (∃ n : Int, RegisterMessage.unmarshalBinary (sampleReg.marshalBinary ++ []) =
       some (n, sampleReg)) ∧
    (∃ out, sampleVB.marshalBinary = some out ∧
       ∀ rest, ∃ n : Nat, VarBind.unmarshalBinary (out ++ rest) = some (n, sampleVB)) := by
  exact ⟨claim_C1_roundtrip.1 sampleOpen (by decide) [],
    claim_C1_roundtrip.2.1 sampleClose (by decide) [],
    claim_C1_roundtrip.2.2.1 sampleReg (by decide) [],
    claim_C1_roundtrip.2.2.2.1 sampleVB (by decide)⟩

/-- C1 counterexample: a Response carrying one Integer VarBind does not
round-trip — the decoder returns the Response with an empty VarBind list. -/
theorem claim_C1_response_cex :
    (sampleResp.marshalBinary.bind Response.unmarshalBinary) =
      some (28, ⟨⟨1, 18, 16, 0, 1, 2, 3, 48⟩, ⟨0, 0, 0, []⟩⟩) ∧
    (⟨⟨1, 18, 16, 0, 1, 2, 3, 48⟩, ⟨0, 0, 0, []⟩⟩ : Response) ≠ sampleResp := by
  exact ⟨by decide, by decide⟩

/-- C2 (amended): for a GetNext request over point handlers, the dispatcher
walks the key-sorted handler list and the *first* handler whose key is `>=`
the start OID (byte-wise Go string order) only consumes the `next` flag —
even when its key is strictly greater than the start — so the *second* such
handler is the one invoked (with its own key); if fewer than two keys are
`>=` the start, the reply is EndOfMibView named with the start OID.  The
emitted name is therefore not in general the least registered OID strictly
greater than the start. -/
theorem claim_C2_getnext (points : List (GoStr × (Subtree → VarBind))) (o : GoStr) :
    getNextVarBind [] points o true =
      match (sortBundles (points.map fun p => ⟨p.1, .point p.2⟩)).filter
          (fun b => goStrLe o b.Oid) with
      | [] => (NewSubtree o).map EndOfMibViewVarBind
      | [_] => (NewSubtree o).map EndOfMibViewVarBind
      | _ :: b :: _ => invokePoint b := by
  simp only [getNextVarBind, List.map_nil, List.nil_append]
  apply varSearch_points_skip
  intro b hb
  rw [mem_sortBundles] at hb
  obtain ⟨p, _, rfl⟩ := List.mem_map.mp hb
  rfl

/-- C2 counterexample: point handlers at `"5"` and `"7"`, GetNext at `"3"`.
The least registered OID strictly greater than 3 is 5 (both in string order
and in expanded numeric order), but the dispatcher answers with 7. -/
theorem claim_C2_cex :
    (getNextVarBind []
        [([53], fun st => IntegerVarBind st 0), ([55], fun st => IntegerVarBind st 7)]
        [51] true).map (fun vb => vb.Name.SubIdentifiers) = some [7] ∧
    goStrLt [51] [53] = true ∧ goStrLt [53] [55] = true ∧
    lexLtInt [3] [5] = true ∧ lexLtInt [5] [7] = true ∧
    ([7] : List Int) ≠ [5] := by
  refine ⟨by decide, by decide, by decide, by decide, by decide, by decide⟩

/-- C3 (amended): in the current dispatcher, Get is served by the same
`varSearch` walk as GetNext (with `next = false`); when no handler matches —
in particular whenever every registered point key is strictly below the
request OID in string order, and when no handler is registered at all — the
reply VarBind has type EndOfMibView (not NoSuchObject) and is named with the
request OID. -/
theorem claim_C3_get_unmatched (points : List (GoStr × (Subtree → VarBind)))
    (o : GoStr) (st : Subtree) (hst : NewSubtree o = some st)
    (hlt : ∀ p ∈ points, goStrLt p.1 o = true) :
    getNextVarBind [] points o false = some (EndOfMibViewVarBind st) := by
  simp only [getNextVarBind, List.map_nil, List.nil_append]
  rw [varSearch_all_below o _ false ?hp ?hlt]
  · rw [hst]
    rfl
  case hp =>
    intro b hb
    rw [mem_sortBundles] at hb
    obtain ⟨p, _, rfl⟩ := List.mem_map.mp hb
    rfl
  case hlt =>
    intro b hb
    rw [mem_sortBundles] at hb
    obtain ⟨p, hp2, rfl⟩ := List.mem_map.mp hb
    exact hlt p hp2

/-- C3 witness: a Get at `"3"` with the only point handler registered at
`"1"` yields EndOfMibView named 3. -/
theorem claim_C3_witness :
    NewSubtree [51] = some ⟨1, 0, 0, 0, [3]⟩ ∧
    getNextVarBind [] [([49], fun st => IntegerVarBind st 0)] [51] false =
      some (EndOfMibViewVarBind ⟨1, 0, 0, 0, [3]⟩) := by
  exact ⟨by decide, claim_C3_get_unmatched _ _ _ (by decide) (by decide)⟩

/-- C3 counterexample: a Get at `"1"` with no handlers registered replies
with type EndOfMibView (130), not NoSuchObject (128) as the claim states. -/
theorem claim_C3_cex :
    (getNextVarBind [] [] [49] false).map (fun vb => (vb.VType, vb.Name.SubIdentifiers)) =
      some (EndOfMibViewT, [1]) ∧
    EndOfMibViewT ≠ NoSuchObjectT := by
  exact ⟨by decide, by decide⟩

/-- C4: `NewOpenMessage("1.2.3.4.7", "muffin man")` does set
`payload_length = 44` with exactly 44 bytes following the 20-byte header —
but the invariant is not maintained by the constructor in general: with a
nil description the zero-valued `Desc` field is still marshalled (4 bytes)
yet not counted, so `payload_length = 28` while 32 bytes follow the header. -/
theorem claim_C4_payload_length :
    (NewOpenMessage (some oidStr947) (some muffinStr)).map
        (fun m => (m.Hdr.PayloadLength, ((m.marshalBinary.length : Nat) : Int))) =
      some (44, 64) ∧
    (NewOpenMessage (some oidStr947) none).map
        (fun m => (m.Hdr.PayloadLength, ((m.marshalBinary.length : Nat) : Int))) =
      some (28, 52) ∧
    (28 : Int) ≠ 52 - 20 ∧
    (NewCloseMessage CloseReasonShutdown 47).Hdr.PayloadLength = 4 ∧
    (NewCloseMessage CloseReasonShutdown 47).marshalBinary.length = 24 := by
  refine ⟨by decide, by decide, by decide, by decide, by decide⟩

/-- C5: the comparison operations compare the dotted-decimal *string* forms
byte-wise, not the expanded numeric sequences: for A = 1.9 and B = 1.10 the
code orders A *after* B (because `"1.9" > "1.10"` as strings), while the
lexicographic order on expanded subidentifier sequences puts A before B. -/
theorem claim_C5_compare_is_string_order :
    Subtree.lessThan ⟨2, 0, 0, 0, [1, 9]⟩ ⟨2, 0, 0, 0, [1, 10]⟩ = some false ∧
    Subtree.lessThanEq ⟨2, 0, 0, 0, [1, 9]⟩ ⟨2, 0, 0, 0, [1, 10]⟩ = some false ∧
    Subtree.greaterThan ⟨2, 0, 0, 0, [1, 9]⟩ ⟨2, 0, 0, 0, [1, 10]⟩ = some true ∧
    Subtree.greaterThanEq ⟨2, 0, 0, 0, [1, 9]⟩ ⟨2, 0, 0, 0, [1, 10]⟩ = some true ∧
    lexLtInt (Subtree.expand ⟨2, 0, 0, 0, [1, 9]⟩)
      (Subtree.expand ⟨2, 0, 0, 0, [1, 10]⟩) = true := by
  refine ⟨by decide, by decide, by decide, by decide, by decide⟩

/-- C6: `HasPrefix` tests string prefixes of the dotted forms, so an OID
whose first differing subidentifier merely extends the digits of the
candidate's last subidentifier is wrongly reported as having the prefix:
1.22 "has prefix" 1.2 although [1,2] is not a sequence-prefix of [1,22]. -/
theorem claim_C6_haspref_cex :
    Subtree.hasPref ⟨2, 0, 0, 0, [1, 22]⟩ ⟨2, 0, 0, 0, [1, 2]⟩ = some true ∧
    seqIsPref (Subtree.expand ⟨2, 0, 0, 0, [1, 2]⟩)
      (Subtree.expand ⟨2, 0, 0, 0, [1, 22]⟩) = false := by
  exact ⟨by decide, by decide⟩

/-- C7: an octet string encodes as the 32-bit length, the octets, and 0..3
zero pad bytes to a 4-byte boundary (every encoding's length is divisible by
4); the empty string encodes as exactly four zero bytes; and the decoder
consumes the pad, reporting a byte count equal to the encoded field length. -/
theorem claim_C7_octetstring :
    (∀ s : OctetString, (s.marshalBinary).length % 4 = 0) ∧
    (∀ bs : List Nat,
       (NewOctetString bs).marshalBinary =
         i32be ((bs.length : Nat) : Int) ++ bs ++
           List.replicate ((4 - bs.length % 4) % 4) 0) ∧
    (NewOctetString []).marshalBinary = [0, 0, 0, 0] ∧
    (∀ (bs rest : List Nat), bs.length < 2147483648 →
       OctetString.unmarshalBinary ((NewOctetString bs).marshalBinary ++ rest) =
         some ((((NewOctetString bs).marshalBinary.length : Nat) : Int),
               NewOctetString bs)) := by
  refine ⟨?_, ?_, by decide, ?_⟩
  · intro s
    obtain ⟨L, t⟩ := s
    simp only [OctetString.marshalBinary, OctetString.pad_eval]
    by_cases hmod : t.length % 4 = 0
    · simp only [if_pos hmod, List.length_append, i32be_length]
      omega
    · simp only [if_neg hmod, List.length_append, i32be_length, List.length_replicate]
      omega
  · intro bs
    rw [NewOctetString_spec]
    simp only [OctetString.marshalBinary]
    have hpad := OctetString.pad_of_aligned
      (OctetString.mk ((bs.length : Nat) : Int)
        (bs ++ List.replicate ((4 - bs.length % 4) % 4) 0))
      (by simp only [List.length_append, List.length_replicate]; omega)
    rw [hpad]
    simp [List.append_assoc]
  · intro bs rest h
    exact octetStringDecodeEncode (NewOctetString bs) (NewOctetString_wf bs h) rest

/-- C7 witness: the scenario-S4 octet string `[0xCC, 0x33]` encodes as
`[0,0,0,2, 0xCC, 0x33, 0, 0]` and decodes back consuming all 8 bytes. -/
theorem claim_C7_witness :
    OctetString.unmarshalBinary ((NewOctetString [204, 51]).marshalBinary ++ []) =
      some ((((NewOctetString [204, 51]).marshalBinary.length : Nat) : Int),
            NewOctetString [204, 51]) ∧
    (NewOctetString [204, 51]).marshalBinary = [0, 0, 0, 2, 204, 51, 0, 0] := by
  exact ⟨claim_C7_octetstring.2.2.2 [204, 51] [] (by decide), by decide⟩

/-- C8 (amended): for an inbound TestSet, the dispatcher invokes *every*
test-set handler whose key is a string prefix of the VarBind's dotted name
(VarBinds outer, key-sorted handlers inner), each invocation overwriting the
reply's error; the reply carries the last matching result, or
ResourceUnavailable (13, not NotWritable) when nothing matches. -/
theorem claim_C8_testset (handlers : List (GoStr × (VarBind → Int → Int)))
    (sid : Int) (h : Header) (vbs : List VarBind)
    (hnames : ∀ v ∈ vbs, v.Name.SubIdentifiers ≠ []) :
    handleTestSet handlers sid h vbs =
      some ⟨⟨1, ResponsePDU, h.Flags &&& NetworkByteOrder, 0, sid,
             h.TransactionId, h.PacketId, 8⟩,
            ⟨0, ((testSetMatchList (sortPairs handlers) sid vbs).getLast?).getD
              TestSetResourceUnavailable, 0, []⟩⟩ := by
  unfold handleTestSet
  rw [testSetScan_char _ _ _ _ hnames]
  rfl

/-- C8 witness: one handler at `"1"`, one VarBind named 1.3. -/
theorem claim_C8_witness :
    handleTestSet [([49], fun _ _ => TestSetWrongType)] 5 sampleHdr
        [IntegerVarBind ⟨2, 0, 0, 0, [1, 3]⟩ 47] =
      some ⟨⟨1, ResponsePDU, sampleHdr.Flags &&& NetworkByteOrder, 0, 5,
             sampleHdr.TransactionId, sampleHdr.PacketId, 8⟩,
            ⟨0, ((testSetMatchList (sortPairs [([49], fun _ _ => TestSetWrongType)]) 5
                   [IntegerVarBind ⟨2, 0, 0, 0, [1, 3]⟩ 47]).getLast?).getD
              TestSetResourceUnavailable, 0, []⟩⟩ := by
  exact claim_C8_testset _ _ _ _ (by decide)

/-- C8 counterexample: with no handler matching, the reply error is
ResourceUnavailable (13), not NotWritable (17); and with two matching
handlers the reply carries the *last* result (NoError), not the worst
(WrongType). -/
theorem claim_C8_cex :
    (handleTestSet [] 7 sampleHdr [IntegerVarBind ⟨2, 0, 0, 0, [1, 3]⟩ 47]).map
        (fun r => r.Payload.Error) = some TestSetResourceUnavailable ∧
    TestSetResourceUnavailable ≠ TestSetNotWritable ∧
    (handleTestSet
        [([49], fun _ _ => TestSetWrongType), ([49, 46, 51], fun _ _ => TestSetNoError)]
        7 sampleHdr [IntegerVarBind ⟨2, 0, 0, 0, [1, 3]⟩ 47]).map
        (fun r => r.Payload.Error) = some TestSetNoError := by
  refine ⟨by decide, by decide, by decide⟩

/-- C9: the dispatcher *does* panic on externally sourced input: a CommitSet
with no commit-set handler installed calls a nil function (modelled `none`),
as does a CleanupSet with no cleanup-set handler; and `Subtree.String`
panics on a decoded OID with zero subidentifiers. -/
theorem claim_C9_panics :
    handleCommitSet none 5 sampleHdr = none ∧
    handleCleanupSet none sampleHdr = none ∧
    subtreeString ⟨0, 0, 0, 0, []⟩ = none := by
  exact ⟨rfl, rfl, rfl⟩

/-- C10: `doRegister` discards `sendMsg`'s result: on a closed connection
`sendMsg` returns `io.EOF`, and on a write failure it returns the write
error, yet `Register` returns success (`nil`) to the caller in both cases. -/
theorem claim_C10_register_err :
    (NewRegisterMessage [49] (some []) none).map
        (fun m => sendMsgRegister ⟨true, 9, []⟩ true m) = some (.error .eof) ∧
    doRegister ⟨true, 9, []⟩ true [49] false = some (⟨true, 9, [[49]]⟩, none) ∧
    (NewRegisterMessage [49] (some []) none).map
        (fun m => sendMsgRegister ⟨false, 9, []⟩ false m) = some (.error .errWrite) ∧
    doRegister ⟨false, 9, []⟩ false [49] false = some (⟨false, 9, [[49]]⟩, none) := by
  refine ⟨rfl, rfl, rfl, rfl⟩

end Agx
